import Mathlib

/-!
Verification development for the arXiv paper extractor (src/app.py).

The Python functions are shallowly embedded over lists of characters.
Python regular-expression searches are modelled by explicit scanning
functions that follow the search semantics of the patterns appearing in
the source.  Python `\d` is modelled as an ASCII digit; the unescaped
`.` in the URL patterns matches any character other than a newline, and
`$` matches at the end of the input or just before a trailing newline,
as in the `re` module.
-/

set_option maxRecDepth 100000
set_option maxHeartbeats 1600000

namespace ArxivApp

/-- Digit class used by the identifier patterns (ASCII model of `\d`). -/
def isDig (c : Char) : Bool := c.isDigit

/-- Match a run of literal characters at the head of the input, returning
the remainder on success. -/
def matchLitRun : List Char → List Char → Option (List Char)
  | [], l => some l
  | _ :: _, [] => none
  | a :: as, c :: cs => if c = a then matchLitRun as cs else none

/-- Match the group `(\d+\.\d+)` greedily at the head of the input,
returning the matched group characters: a nonempty maximal digit run, a
literal dot, and a second nonempty maximal digit run. -/
def matchIdAt (l : List Char) : Option (List Char) :=
  match l.takeWhile isDig, l.dropWhile isDig with
  | [], _ => none
  | _ :: _, '.' :: r2 =>
    match r2.takeWhile isDig with
    | [] => none
    | e :: es => some (l.takeWhile isDig ++ '.' :: e :: es)
  | _ :: _, _ => none

/-- Match one of the two URL patterns at the head of the input: the
literal `arxiv`, the unescaped dot (any character but a newline), the
literal middle part (`org/abs/` or `org/pdf/`), then the id group. -/
def matchUrlPat (mid : List Char) (l : List Char) : Option (List Char) :=
  match matchLitRun ("arxiv".toList) l with
  | none => none
  | some [] => none
  | some (c :: cs) =>
    if c = '\n' then none else
      match matchLitRun mid cs with
      | none => none
      | some r => matchIdAt r

/-- Scan for the leftmost position where a URL pattern matches, as
`re.search` does. -/
def searchUrl (mid : List Char) : List Char → Option (List Char)
  | [] => none
  | c :: cs =>
    match matchUrlPat mid (c :: cs) with
    | some g => some g
    | none => searchUrl mid cs

/-- Match the anchored pattern of the source, where the trailing anchor
accepts the end of the input or a position just before a final newline. -/
def bareMatch (l : List Char) : Option (List Char) :=
  match l.takeWhile isDig, l.dropWhile isDig with
  | [], _ => none
  | _ :: _, '.' :: r2 =>
    match r2.takeWhile isDig with
    | [] => none
    | e :: es =>
      if r2.dropWhile isDig = [] ∨ r2.dropWhile isDig = ['\n'] then
        some (l.takeWhile isDig ++ '.' :: e :: es)
      else none
  | _ :: _, _ => none

/-- Middle literal of the first URL pattern. -/
def absMid : List Char := "org/abs/".toList

/-- Middle literal of the second URL pattern. -/
def pdfMid : List Char := "org/pdf/".toList

/-- Embedding of `extract_arxiv_id` from src/app.py: the three patterns
are tried in order and the first match wins. -/
def extract_arxiv_id (url : String) : Option String :=
  match searchUrl absMid url.toList with
  | some g => some (String.mk g)
  | none =>
    match searchUrl pdfMid url.toList with
    | some g => some (String.mk g)
    | none =>
      match bareMatch url.toList with
      | some g => some (String.mk g)
      | none => none

example : extract_arxiv_id "https://arxiv.org/abs/2301.00001" = some "2301.00001" := by rfl
example : extract_arxiv_id "not-a-url" = none := by rfl
example : extract_arxiv_id "2301.00001" = some "2301.00001" := by rfl
example : extract_arxiv_id "arxivXorg/abs/2301.00001" = some "2301.00001" := by rfl
example : extract_arxiv_id "2301.00001\n" = some "2301.00001" := by rfl
example : extract_arxiv_id "x 2301.00001" = none := by rfl
example : extract_arxiv_id "https://arxiv.org/pdf/1706.03762v2" = some "1706.03762" := by rfl

/-! Declarative shapes of inputs, used to state the claims about the
identifier parser independently of the scanning functions above. -/

/-- A nonempty run of digits. -/
def IsDigits (l : List Char) : Prop := l ≠ [] ∧ ∀ c ∈ l, isDig c

instance instDecidableIsDigits (l : List Char) : Decidable (IsDigits l) :=
  inferInstanceAs (Decidable (_ ∧ _))

/-- The input decomposes, at some position, as the literal `arxiv`, one
arbitrary non-newline character, the given middle literal, and a
digits-dot-digits group followed by arbitrary text. -/
def UrlShapeAt (mid l : List Char) : Prop :=
  ∃ c d1 d2 r, c ≠ '\n' ∧ IsDigits d1 ∧ IsDigits d2 ∧
    l = "arxiv".toList ++ c :: mid ++ d1 ++ '.' :: d2 ++ r

/-- The URL decomposition occurs somewhere in the input. -/
def UrlShape (mid l : List Char) : Prop := ∃ pre suf, l = pre ++ suf ∧ UrlShapeAt mid suf

/-- The whole input is digits-dot-digits, possibly followed by one final
newline. -/
def BareShape (l : List Char) : Prop :=
  ∃ d1 d2, IsDigits d1 ∧ IsDigits d2 ∧ (l = d1 ++ '.' :: d2 ∨ l = d1 ++ '.' :: d2 ++ ['\n'])

/-- Shape asserted by the specification for the URL inputs: the literal
text (with a true dot) occurs in the input followed by an identifier. -/
def LitUrlShape (lit l : List Char) : Prop :=
  ∃ pre d1 d2 post, IsDigits d1 ∧ IsDigits d2 ∧ l = pre ++ lit ++ d1 ++ '.' :: d2 ++ post

/-- Shape asserted by the specification for bare identifiers: the whole
input is digits-dot-digits. -/
def ExactIdShape (l : List Char) : Prop :=
  ∃ d1 d2, IsDigits d1 ∧ IsDigits d2 ∧ l = d1 ++ '.' :: d2

theorem matchLitRun_eq_some {lit l r : List Char} :
    matchLitRun lit l = some r ↔ l = lit ++ r := by
  induction lit generalizing l with
  | nil => simp [matchLitRun]
  | cons a as ih =>
    cases l with
    | nil => simp [matchLitRun]
    | cons c cs =>
      by_cases hc : c = a
      · subst hc
        simp [matchLitRun, ih]
      · simp [matchLitRun, hc, Ne.symm hc]

theorem matchIdAt_some_shape {l g : List Char} (h : matchIdAt l = some g) :
    (∃ d1 d2, IsDigits d1 ∧ IsDigits d2 ∧ g = d1 ++ '.' :: d2) ∧ g <+: l := by
  unfold matchIdAt at h
  split at h
  · exact absurd h (by simp)
  · rename_i a as r2 heq1 heq2
    split at h
    · exact absurd h (by simp)
    · rename_i e es heq3
      simp only [Option.some.injEq] at h
      have hl : l = l.takeWhile isDig ++ '.' :: r2 := by
        conv_lhs => rw [← List.takeWhile_append_dropWhile (p := isDig) (l := l)]
        rw [heq2]
      have hr2 : r2 = (e :: es) ++ r2.dropWhile isDig := by
        conv_lhs => rw [← List.takeWhile_append_dropWhile (p := isDig) (l := r2)]
        rw [heq3]
      refine ⟨⟨l.takeWhile isDig, e :: es,
        ⟨by rw [heq1]; simp, fun c hc => List.mem_takeWhile_imp hc⟩,
        ⟨by simp, fun c hc => by rw [← heq3] at hc; exact List.mem_takeWhile_imp hc⟩,
        h.symm⟩, ?_⟩
      refine ⟨r2.dropWhile isDig, ?_⟩
      rw [← h]
      conv_rhs => rw [hl]
      conv_rhs => rw [hr2]
      simp
  · exact absurd h (by simp)

theorem matchIdAt_eq_of_shape {d1 d2 r : List Char}
    (h1 : IsDigits d1) (h2 : IsDigits d2) :
    matchIdAt (d1 ++ '.' :: (d2 ++ r)) = some (d1 ++ '.' :: (d2 ++ r.takeWhile isDig)) := by
  obtain ⟨c1, d1t, rfl⟩ : ∃ c1 d1t, d1 = c1 :: d1t := by
    cases d1 with
    | nil => exact absurd rfl h1.1
    | cons a b => exact ⟨a, b, rfl⟩
  obtain ⟨c2, d2t, rfl⟩ : ∃ c2 d2t, d2 = c2 :: d2t := by
    cases d2 with
    | nil => exact absurd rfl h2.1
    | cons a b => exact ⟨a, b, rfl⟩
  have e1 : ((c1 :: d1t) ++ '.' :: ((c2 :: d2t) ++ r)).takeWhile isDig = c1 :: d1t := by
    rw [List.takeWhile_append_of_pos h1.2,
      List.takeWhile_cons_of_neg (p := isDig) (by decide), List.append_nil]
  have e2 : ((c1 :: d1t) ++ '.' :: ((c2 :: d2t) ++ r)).dropWhile isDig
      = '.' :: ((c2 :: d2t) ++ r) := by
    rw [List.dropWhile_append_of_pos h1.2,
      List.dropWhile_cons_of_neg (p := isDig) (by decide)]
  have e3 : ((c2 :: d2t) ++ r).takeWhile isDig = (c2 :: d2t) ++ r.takeWhile isDig :=
    List.takeWhile_append_of_pos h2.2
  unfold matchIdAt
  rw [e1, e2]
  show (match ((c2 :: d2t) ++ r).takeWhile isDig with
    | [] => none
    | e :: es => some ((c1 :: d1t) ++ '.' :: e :: es)) = _
  rw [e3]
  simp

theorem matchIdAt_isSome_of_shape {d1 d2 r : List Char}
    (h1 : IsDigits d1) (h2 : IsDigits d2) :
    (matchIdAt (d1 ++ '.' :: (d2 ++ r))).isSome := by
  rw [matchIdAt_eq_of_shape h1 h2]
  rfl

theorem matchUrlPat_some {mid l g : List Char} (h : matchUrlPat mid l = some g) :
    UrlShapeAt mid l ∧
      (∃ d1 d2, IsDigits d1 ∧ IsDigits d2 ∧ g = d1 ++ '.' :: d2) ∧ g <:+: l := by
  unfold matchUrlPat at h
  split at h
  · exact absurd h (by simp)
  · exact absurd h (by simp)
  · rename_i c cs heq1
    by_cases hc : c = '\n'
    · rw [if_pos hc] at h
      exact absurd h (by simp)
    · rw [if_neg hc] at h
      split at h
      · exact absurd h (by simp)
      · rename_i r heq2
        have hcs : cs = mid ++ r := matchLitRun_eq_some.mp heq2
        have hl : l = "arxiv".toList ++ c :: cs := matchLitRun_eq_some.mp heq1
        obtain ⟨⟨d1, d2, hd1, hd2, hg⟩, t, hpre⟩ := matchIdAt_some_shape h
        refine ⟨⟨c, d1, d2, t, hc, hd1, hd2, ?_⟩,
          ⟨d1, d2, hd1, hd2, hg⟩, ?_⟩
        · rw [hl, hcs, ← hpre, hg]
          simp
        · exact ⟨"arxiv".toList ++ c :: mid, t, by rw [hl, hcs, ← hpre]; simp⟩

theorem matchUrlPat_eq {mid : List Char} {c : Char} {rest : List Char} (hc : c ≠ '\n') :
    matchUrlPat mid ("arxiv".toList ++ (c :: (mid ++ rest))) = matchIdAt rest := by
  unfold matchUrlPat
  rw [show matchLitRun "arxiv".toList ("arxiv".toList ++ (c :: (mid ++ rest)))
    = some (c :: (mid ++ rest)) from matchLitRun_eq_some.mpr rfl]
  show (if c = '\n' then none else
    match matchLitRun mid (mid ++ rest) with
    | none => none
    | some r => matchIdAt r) = _
  rw [if_neg hc,
    show matchLitRun mid (mid ++ rest) = some rest from matchLitRun_eq_some.mpr rfl]

theorem matchUrlPat_isSome_of_shapeAt {mid l : List Char} (h : UrlShapeAt mid l) :
    (matchUrlPat mid l).isSome := by
  obtain ⟨c, d1, d2, r, hc, hd1, hd2, hl⟩ := h
  have e : l = "arxiv".toList ++ (c :: (mid ++ (d1 ++ '.' :: (d2 ++ r)))) := by
    rw [hl]; simp
  rw [e, matchUrlPat_eq hc]
  exact matchIdAt_isSome_of_shape hd1 hd2

theorem searchUrl_some {mid l g : List Char} (h : searchUrl mid l = some g) :
    ∃ suf, suf <:+ l ∧ matchUrlPat mid suf = some g := by
  induction l with
  | nil => exact absurd h (by simp [searchUrl])
  | cons c cs ih =>
    unfold searchUrl at h
    split at h
    · rename_i g0 heq
      cases h
      exact ⟨c :: cs, List.suffix_refl _, heq⟩
    · obtain ⟨suf, hsuf, hm⟩ := ih h
      exact ⟨suf, hsuf.trans (List.suffix_cons c cs), hm⟩

theorem searchUrl_isSome_of_shape {mid l : List Char} (h : UrlShape mid l) :
    (searchUrl mid l).isSome := by
  obtain ⟨pre, suf, hl, hat⟩ := h
  subst hl
  induction pre with
  | nil =>
    simp only [List.nil_append]
    have hm : (matchUrlPat mid suf).isSome := matchUrlPat_isSome_of_shapeAt hat
    cases suf with
    | nil =>
      rw [show matchUrlPat mid ([] : List Char) = none from rfl] at hm
      exact absurd hm (by simp)
    | cons c0 cs0 =>
      unfold searchUrl
      split
      · rfl
      · rename_i heq
        rw [heq] at hm
        exact absurd hm (by simp)
  | cons p ps ih =>
    simp only [List.cons_append]
    unfold searchUrl
    split
    · rfl
    · exact ih

theorem searchUrl_isSome_iff {mid l : List Char} :
    (searchUrl mid l).isSome ↔ UrlShape mid l := by
  constructor
  · intro h
    obtain ⟨g, hg⟩ := Option.isSome_iff_exists.mp h
    obtain ⟨suf, ⟨pre, hpre⟩, hm⟩ := searchUrl_some hg
    exact ⟨pre, suf, hpre.symm, (matchUrlPat_some hm).1⟩
  · exact searchUrl_isSome_of_shape

theorem bareMatch_some {l g : List Char} (h : bareMatch l = some g) :
    (∃ d1 d2, IsDigits d1 ∧ IsDigits d2 ∧ g = d1 ++ '.' :: d2) ∧
      (l = g ∨ l = g ++ ['\n']) := by
  unfold bareMatch at h
  split at h
  · exact absurd h (by simp)
  · rename_i a as r2 heq1 heq2
    split at h
    · exact absurd h (by simp)
    · rename_i e es heq3
      split at h
      · rename_i hr3
        simp only [Option.some.injEq] at h
        have hl : l = l.takeWhile isDig ++ '.' :: r2 := by
          conv_lhs => rw [← List.takeWhile_append_dropWhile (p := isDig) (l := l)]
          rw [heq2]
        have hr2 : r2 = (e :: es) ++ r2.dropWhile isDig := by
          conv_lhs => rw [← List.takeWhile_append_dropWhile (p := isDig) (l := r2)]
          rw [heq3]
        refine ⟨⟨l.takeWhile isDig, e :: es,
          ⟨by rw [heq1]; simp, fun c hc => List.mem_takeWhile_imp hc⟩,
          ⟨by simp, fun c hc => by rw [← heq3] at hc; exact List.mem_takeWhile_imp hc⟩,
          h.symm⟩, ?_⟩
        rcases hr3 with h3 | h3
        · left
          rw [← h]
          conv_lhs => rw [hl]
          conv_lhs => rw [hr2]
          rw [h3]
          simp
        · right
          rw [← h]
          conv_lhs => rw [hl]
          conv_lhs => rw [hr2]
          rw [h3]
          simp
      · exact absurd h (by simp)
  · exact absurd h (by simp)

theorem bareMatch_eq_of_shape {d1 d2 r : List Char} (h1 : IsDigits d1) (h2 : IsDigits d2)
    (hr : r = [] ∨ r = ['\n']) :
    bareMatch (d1 ++ '.' :: (d2 ++ r)) = some (d1 ++ '.' :: d2) := by
  obtain ⟨c1, d1t, rfl⟩ : ∃ c1 d1t, d1 = c1 :: d1t := by
    cases d1 with
    | nil => exact absurd rfl h1.1
    | cons a b => exact ⟨a, b, rfl⟩
  obtain ⟨c2, d2t, rfl⟩ : ∃ c2 d2t, d2 = c2 :: d2t := by
    cases d2 with
    | nil => exact absurd rfl h2.1
    | cons a b => exact ⟨a, b, rfl⟩
  have e1 : ((c1 :: d1t) ++ '.' :: ((c2 :: d2t) ++ r)).takeWhile isDig = c1 :: d1t := by
    rw [List.takeWhile_append_of_pos h1.2,
      List.takeWhile_cons_of_neg (p := isDig) (by decide), List.append_nil]
  have e2 : ((c1 :: d1t) ++ '.' :: ((c2 :: d2t) ++ r)).dropWhile isDig
      = '.' :: ((c2 :: d2t) ++ r) := by
    rw [List.dropWhile_append_of_pos h1.2,
      List.dropWhile_cons_of_neg (p := isDig) (by decide)]
  have e3 : ((c2 :: d2t) ++ r).takeWhile isDig = c2 :: d2t := by
    rw [List.takeWhile_append_of_pos h2.2]
    rcases hr with rfl | rfl
    · simp
    · rw [List.takeWhile_cons_of_neg (p := isDig) (by decide)]
      simp
  have e4 : ((c2 :: d2t) ++ r).dropWhile isDig = r := by
    rw [List.dropWhile_append_of_pos h2.2]
    rcases hr with rfl | rfl
    · rfl
    · rw [List.dropWhile_cons_of_neg (p := isDig) (by decide)]
  unfold bareMatch
  rw [e1, e2]
  show (match ((c2 :: d2t) ++ r).takeWhile isDig with
    | [] => none
    | e :: es =>
      if ((c2 :: d2t) ++ r).dropWhile isDig = [] ∨
          ((c2 :: d2t) ++ r).dropWhile isDig = ['\n'] then
        some ((c1 :: d1t) ++ '.' :: e :: es)
      else none) = _
  rw [e3, e4]
  show (if r = [] ∨ r = ['\n'] then some ((c1 :: d1t) ++ '.' :: c2 :: d2t) else none) = _
  rw [if_pos hr]

theorem bareMatch_isSome_iff {l : List Char} : (bareMatch l).isSome ↔ BareShape l := by
  constructor
  · intro h
    obtain ⟨g, hg⟩ := Option.isSome_iff_exists.mp h
    obtain ⟨⟨d1, d2, hd1, hd2, hgeq⟩, hl⟩ := bareMatch_some hg
    refine ⟨d1, d2, hd1, hd2, ?_⟩
    rcases hl with rfl | rfl
    · left; rw [hgeq]
    · right; rw [hgeq]
  · rintro ⟨d1, d2, hd1, hd2, hl⟩
    rcases hl with rfl | rfl
    · rw [show d1 ++ '.' :: d2 = d1 ++ '.' :: (d2 ++ []) by simp,
        bareMatch_eq_of_shape hd1 hd2 (Or.inl rfl)]
      rfl
    · rw [show d1 ++ '.' :: d2 ++ ['\n'] = d1 ++ '.' :: (d2 ++ ['\n']) by simp,
        bareMatch_eq_of_shape hd1 hd2 (Or.inr rfl)]
      rfl

theorem extract_arxiv_id_isSome_iff (s : String) :
    (extract_arxiv_id s).isSome ↔
      UrlShape absMid s.toList ∨ UrlShape pdfMid s.toList ∨ BareShape s.toList := by
  rw [← @searchUrl_isSome_iff absMid s.toList, ← @searchUrl_isSome_iff pdfMid s.toList,
    ← bareMatch_isSome_iff]
  unfold extract_arxiv_id
  rcases habs : searchUrl absMid s.toList with _ | g <;>
    rcases hpdf : searchUrl pdfMid s.toList with _ | g2 <;>
      rcases hbare : bareMatch s.toList with _ | g3 <;>
        simp [habs, hpdf, hbare]

theorem extract_arxiv_id_some_val {s v : String} (h : extract_arxiv_id s = some v) :
    (∃ d1 d2, IsDigits d1 ∧ IsDigits d2 ∧ v.toList = d1 ++ '.' :: d2) ∧
      v.toList <:+: s.toList := by
  unfold extract_arxiv_id at h
  split at h
  · rename_i g habs
    cases h
    obtain ⟨suf, hsuf, hm⟩ := searchUrl_some habs
    obtain ⟨_, hid, hinf⟩ := matchUrlPat_some hm
    exact ⟨hid, hinf.trans hsuf.isInfix⟩
  · split at h
    · rename_i g hpdf
      cases h
      obtain ⟨suf, hsuf, hm⟩ := searchUrl_some hpdf
      obtain ⟨_, hid, hinf⟩ := matchUrlPat_some hm
      exact ⟨hid, hinf.trans hsuf.isInfix⟩
    · split at h
      · rename_i g hbare
        cases h
        obtain ⟨hid, hl⟩ := bareMatch_some hbare
        refine ⟨hid, ?_⟩
        rcases hl with hl | hl
        · refine ⟨[], [], ?_⟩
          simp only [List.nil_append, List.append_nil]
          exact hl.symm
        · refine ⟨[], ['\n'], ?_⟩
          simp only [List.nil_append]
          exact hl.symm
      · exact absurd h (by simp)

theorem litUrlShape_infix {lit l : List Char} (h : LitUrlShape lit l) : lit <:+: l := by
  obtain ⟨pre, d1, d2, post, _, _, hl⟩ := h
  exact ⟨pre, d1 ++ '.' :: d2 ++ post, by rw [hl]; simp⟩

theorem exactIdShape_chars {l : List Char} (h : ExactIdShape l) :
    ∀ c ∈ l, isDig c ∨ c = '.' := by
  obtain ⟨d1, d2, hd1, hd2, hl⟩ := h
  intro c hc
  rw [hl] at hc
  rcases List.mem_append.mp hc with h1 | h2
  · exact Or.inl (hd1.2 c h1)
  · rcases List.mem_cons.mp h2 with h3 | h3
    · exact Or.inr h3
    · exact Or.inl (hd2.2 c h3)

/-- C3 (amended): the identifier parser accepts exactly the inputs with a
URL decomposition in which the dot of the host literal may be any
non-newline character, or whose whole text is digits-dot-digits possibly
followed by one trailing newline; any returned value is a
digits-dot-digits substring of the input.  On all other inputs it
returns the no-match value rather than raising. -/
theorem extract_arxiv_id_accepted_shapes (s : String) :
    ((extract_arxiv_id s).isSome ↔
      UrlShape absMid s.toList ∨ UrlShape pdfMid s.toList ∨ BareShape s.toList) ∧
    ∀ v : String, extract_arxiv_id s = some v →
      (∃ d1 d2, IsDigits d1 ∧ IsDigits d2 ∧ v.toList = d1 ++ '.' :: d2) ∧
        v.toList <:+: s.toList :=
  ⟨extract_arxiv_id_isSome_iff s, fun _ h => extract_arxiv_id_some_val h⟩

theorem extract_arxiv_id_accepted_shapes_witness :
    (∃ d1 d2, IsDigits d1 ∧ IsDigits d2 ∧
        ("2301.00001" : String).toList = d1 ++ '.' :: d2) ∧
      ("2301.00001" : String).toList <:+:
        ("https://arxiv.org/abs/2301.00001" : String).toList :=
  (extract_arxiv_id_accepted_shapes "https://arxiv.org/abs/2301.00001").2
    "2301.00001" (by rfl)

/-- C3 counterexample: the input is none of the three shapes named by the
specification, since it does not contain the literal text arxiv.org and
is not entirely digits-dot-digits, yet the parser returns an
identifier. -/
theorem extract_arxiv_id_literal_shapes_counterexample :
    ¬ LitUrlShape "arxiv.org/abs/".toList ("arxivXorg/abs/2301.00001" : String).toList ∧
    ¬ LitUrlShape "arxiv.org/pdf/".toList ("arxivXorg/abs/2301.00001" : String).toList ∧
    ¬ ExactIdShape ("arxivXorg/abs/2301.00001" : String).toList ∧
    extract_arxiv_id "arxivXorg/abs/2301.00001" = some "2301.00001" := by
  refine ⟨fun h => ?_, fun h => ?_, fun h => ?_, by rfl⟩
  · have hi := litUrlShape_infix h
    revert hi
    decide
  · have hi := litUrlShape_infix h
    revert hi
    decide
  · have hi := exactIdShape_chars h 'a' (by decide)
    revert hi
    decide

/-- C9 (amended): the URL patterns match anywhere in the input with the
dot of the host literal acting as a non-newline wildcard, while the bare
pattern is anchored and accepts only digits-dot-digits inputs possibly
followed by one trailing newline. -/
theorem url_wildcard_and_bare_anchor :
    (extract_arxiv_id "arxivXorg/abs/2301.00001" = some "2301.00001") ∧
    (∀ l : List Char, UrlShape absMid l → (searchUrl absMid l).isSome) ∧
    (∀ s v : String, extract_arxiv_id s = some v →
      ¬ UrlShape absMid s.toList → ¬ UrlShape pdfMid s.toList →
      s.toList = v.toList ∨ s.toList = v.toList ++ ['\n']) := by
  refine ⟨by rfl, fun l h => searchUrl_isSome_of_shape h, fun s v h habs hpdf => ?_⟩
  unfold extract_arxiv_id at h
  split at h
  · rename_i g heq
    exact absurd (searchUrl_isSome_iff.mp (by rw [heq]; rfl)) habs
  · split at h
    · rename_i g heq
      exact absurd (searchUrl_isSome_iff.mp (by rw [heq]; rfl)) hpdf
    · split at h
      · rename_i g heq
        cases h
        obtain ⟨_, hl⟩ := bareMatch_some heq
        rcases hl with hl | hl
        · exact Or.inl hl
        · exact Or.inr hl
      · exact absurd h (by simp)

theorem url_wildcard_and_bare_anchor_witness :
    (searchUrl absMid ("zzarxivXorg/abs/2301.00001" : String).toList).isSome ∧
    (("2301.00001" : String).toList = ("2301.00001" : String).toList ∨
      ("2301.00001" : String).toList = ("2301.00001" : String).toList ++ ['\n']) :=
  ⟨url_wildcard_and_bare_anchor.2.1 ("zzarxivXorg/abs/2301.00001" : String).toList
      ⟨"zz".toList, "arxivXorg/abs/2301.00001".toList, by decide,
        'X', "2301".toList, "00001".toList, [], by decide, by decide, by decide, by decide⟩,
    url_wildcard_and_bare_anchor.2.2 "2301.00001" "2301.00001" (by rfl)
      (fun h => by
        have hi := searchUrl_isSome_of_shape h
        revert hi
        decide)
      (fun h => by
        have hi := searchUrl_isSome_of_shape h
        revert hi
        decide)⟩

/-- C9 counterexample: the anchored bare pattern accepts an input that is
not entirely digits-dot-digits, because the trailing anchor also matches
just before a final newline. -/
theorem bare_anchor_newline_counterexample :
    (bareMatch ("2301.00001\n" : String).toList).isSome ∧
    ¬ ExactIdShape ("2301.00001\n" : String).toList ∧
    extract_arxiv_id "2301.00001\n" = some "2301.00001" := by
  refine ⟨by rfl, fun h => ?_, by rfl⟩
  have hi := exactIdShape_chars h '\n' (by decide)
  revert hi
  decide

/-! Text extraction from a PDF (extract_text_from_pdf).  The underlying
library is modelled by its observable outcomes: opening the byte stream
either fails or yields a list of pages, and extracting one page either
yields its text or raises. -/

/-- Outcome of extracting the text of one page. -/
inductive PageRead where
  | ok (text : String)
  | failed

/-- Outcome of opening a byte stream as a PDF page collection. -/
inductive PdfStream where
  | notPdf
  | pages (ps : List PageRead)

/-- The accumulation loop of the source: text plus one newline is
appended per page; a raise anywhere aborts into the handler, which
returns the no-result value. -/
def extractPagesLoop : List PageRead → String → Option String
  | [], acc => some acc
  | PageRead.failed :: _, _ => none
  | PageRead.ok t :: rest, acc => extractPagesLoop rest (acc ++ t ++ "\n")

/-- Embedding of extract_text_from_pdf from src/app.py. -/
def extract_text_from_pdf : PdfStream → Option String
  | PdfStream.notPdf => none
  | PdfStream.pages ps => extractPagesLoop ps ""

/-- The formula claimed by the specification: the page texts in order,
each followed by exactly one newline. -/
def pagesConcat : List String → String
  | [] => ""
  | t :: ts => t ++ "\n" ++ pagesConcat ts

theorem extractPagesLoop_ok (ts : List String) (acc : String) :
    extractPagesLoop (ts.map PageRead.ok) acc = some (acc ++ pagesConcat ts) := by
  induction ts generalizing acc with
  | nil => simp [extractPagesLoop, pagesConcat]
  | cons t ts ih =>
    simp only [List.map_cons]
    show extractPagesLoop (ts.map PageRead.ok) (acc ++ t ++ "\n") = _
    rw [ih]
    show some _ = some (acc ++ (t ++ "\n" ++ pagesConcat ts))
    rw [← String.append_assoc, ← String.append_assoc]

theorem extractPagesLoop_failed (done : List String) (rest : List PageRead) (acc : String) :
    extractPagesLoop (done.map PageRead.ok ++ PageRead.failed :: rest) acc = none := by
  induction done generalizing acc with
  | nil => rfl
  | cons t ts ih =>
    simp only [List.map_cons, List.cons_append]
    show extractPagesLoop (ts.map PageRead.ok ++ PageRead.failed :: rest) (acc ++ t ++ "\n") = _
    exact ih _

/-- C4: for a PDF whose pages yield the texts in order, the extractor
returns the page texts concatenated in order, each followed by exactly
one newline. -/
theorem extract_text_concatenates_pages (ts : List String) :
    extract_text_from_pdf (PdfStream.pages (ts.map PageRead.ok)) = some (pagesConcat ts) := by
  show extractPagesLoop (ts.map PageRead.ok) "" = _
  rw [extractPagesLoop_ok]
  rw [show ("" : String) ++ pagesConcat ts = pagesConcat ts from (pagesConcat ts).empty_append]

/-- C5: a byte stream that is not a valid PDF yields the error outcome,
and a raise while reading any page yields the error outcome with no
partial text, even when earlier pages were read successfully. -/
theorem extract_text_error_no_partial :
    extract_text_from_pdf PdfStream.notPdf = none ∧
    ∀ (done : List String) (rest : List PageRead),
      extract_text_from_pdf
        (PdfStream.pages (done.map PageRead.ok ++ PageRead.failed :: rest)) = none :=
  ⟨rfl, fun done rest => extractPagesLoop_failed done rest ""⟩

/-! The analysis prompt of analyze_paper_with_ai (C6): the paper text is
truncated by Python slicing to its first 50000 characters and spliced
into a fixed f-string. -/

/-- Python string slicing by code points, as in paper_text[:50000]. -/
def pySlice (s : String) (n : Nat) : String := String.mk (s.toList.take n)

/-- Text of the f-string before the interpolated paper text. -/
def promptHead : String := "You are an expert academic research analyst. Analyze the following research paper and extract key information in a structured format.\n\nResearch Paper Text:\n"

/-- Text of the f-string after the interpolated paper text. -/
def promptTail : String := "  # Limit to avoid token limits\n\nPlease provide a comprehensive analysis with the following sections:\n\n1. Background of the study: Summarize the motivation behind the research, its relevance, and the problem it aims to address.\n2. Research objectives and hypothesis: Clearly outline the main goal of the study and the hypothesis the authors are testing.\n3. Methodology: Describe how the authors conducted their research, including experimental design, datasets, and evaluation methods.\n4. Results and findings: Summarize the key outcomes of the study, highlighting improvements or novel discoveries.\n5. Discussion and interpretation: Explain the broader implications of the findings and how they compare to existing approaches.\n6. Contributions to the field: Highlight the unique contributions of the study and its significance.\n7. Achievements and significance: Conclude with the practical impact and potential real-world applications of the research.\n\nFormat your response as a JSON object with the following structure:\n\x7b\n    \"background\": \"...\",\n    \"objectives_and_hypothesis\": \"...\",\n    \"methodology\": \"...\",\n    \"results_and_findings\": \"...\",\n    \"discussion_and_interpretation\": \"...\",\n    \"contributions\": \"...\",\n    \"achievements_and_significance\": \"...\"\n\x7d\n\nEnsure the output is concise, well-structured, and preserves core technical details."

/-- Embedding of the prompt construction in analyze_paper_with_ai. -/
def analysisPrompt (paper_text : String) : String :=
  promptHead ++ pySlice paper_text 50000 ++ promptTail

/-- C6: the prompt includes exactly the first 50000 characters of the
extracted text, the whole text when it is shorter, so any two texts
agreeing on their first 50000 characters produce the identical prompt. -/
theorem prompt_truncation_deterministic :
    (∀ t1 t2 : String, t1.toList.take 50000 = t2.toList.take 50000 →
      analysisPrompt t1 = analysisPrompt t2) ∧
    (∀ t : String, t.toList.length ≤ 50000 →
      analysisPrompt t = promptHead ++ t ++ promptTail) := by
  constructor
  · intro t1 t2 h
    unfold analysisPrompt pySlice
    rw [h]
  · intro t h
    unfold analysisPrompt pySlice
    rw [List.take_of_length_le h]
    rfl

theorem prompt_truncation_deterministic_witness :
    analysisPrompt "short text" = promptHead ++ "short text" ++ promptTail :=
  prompt_truncation_deterministic.2 "short text" (by decide)

/-! JSON values and decoding, modelling json.loads as called by
analyze_paper_with_ai and by the export round trip.  Python objects
decoded from JSON are modelled by the Json type below; numeric values
keep their source lexeme, since no claim compares numeric values across
distinct lexemes.  Object members are kept in Python dict order:
duplicate keys keep the first position and the last value.  Two
boundaries of the model: Python strings may carry lone surrogates,
which Lean strings cannot represent, so string escapes that denote lone
surrogates are rejected rather than decoded; and the digit class is
ASCII. -/

inductive Json where
  | null
  | bool (b : Bool)
  | num (lexeme : String)
  | str (s : String)
  | arr (elems : List Json)
  | obj (members : List (String × Json))

/-- Value of one hexadecimal digit character. -/
def hexVal (c : Char) : Option Nat :=
  if '0' ≤ c ∧ c ≤ '9' then some (c.toNat - 48)
  else if 'a' ≤ c ∧ c ≤ 'f' then some (c.toNat - 87)
  else if 'A' ≤ c ∧ c ≤ 'F' then some (c.toNat - 55)
  else none

/-- Decoded character of a one-character string escape. -/
def escChar (e : Char) : Option Char :=
  if e = '"' then some '"'
  else if e = '\\' then some '\\'
  else if e = '/' then some '/'
  else if e = 'b' then some (Char.ofNat 8)
  else if e = 'f' then some (Char.ofNat 12)
  else if e = 'n' then some '\n'
  else if e = 'r' then some '\r'
  else if e = 't' then some '\t'
  else none

/-- Lexer for the body of a JSON string literal, after the opening
quote: returns the decoded characters and the text after the closing
quote.  Unescaped control characters are rejected, unicode escapes are
decoded with surrogate pairs combined, and escapes denoting lone
surrogates are rejected. -/
def lexStr : List Char → Option (List Char × List Char)
  | [] => none
  | '"' :: cs => some ([], cs)
  | '\\' :: 'u' :: a :: b :: d :: e :: cs =>
    (match hexVal a, hexVal b, hexVal d, hexVal e with
     | some ha, some hb, some hd, some he =>
       let n := 4096 * ha + 256 * hb + 16 * hd + he
       if 0xD800 ≤ n ∧ n ≤ 0xDBFF then
         match cs with
         | '\\' :: 'u' :: a2 :: b2 :: d2 :: e2 :: cs2 =>
           (match hexVal a2, hexVal b2, hexVal d2, hexVal e2 with
            | some ha2, some hb2, some hd2, some he2 =>
              let m := 4096 * ha2 + 256 * hb2 + 16 * hd2 + he2
              if 0xDC00 ≤ m ∧ m ≤ 0xDFFF then
                match lexStr cs2 with
                | some (content, rest) =>
                  some (Char.ofNat (0x10000 + 1024 * (n - 0xD800) + (m - 0xDC00)) :: content,
                    rest)
                | none => none
              else none
            | _, _, _, _ => none)
         | _ => none
       else if 0xDC00 ≤ n ∧ n ≤ 0xDFFF then none
       else
         match lexStr cs with
         | some (content, rest) => some (Char.ofNat n :: content, rest)
         | none => none
     | _, _, _, _ => none)
  | '\\' :: e :: cs =>
    (match escChar e with
     | some c2 =>
       match lexStr cs with
       | some (content, rest) => some (c2 :: content, rest)
       | none => none
     | none => none)
  | ['\\'] => none
  | c :: cs =>
    if c.toNat < 0x20 then none
    else
      match lexStr cs with
      | some (content, rest) => some (c :: content, rest)
      | none => none

/-- Integer part of a number token: zero, or a nonzero leading digit
followed by further digits. -/
def lexInt : List Char → Option (List Char × List Char)
  | [] => none
  | c :: cs =>
    if c = '0' then some (['0'], cs)
    else if isDig c then some (c :: cs.takeWhile isDig, cs.dropWhile isDig)
    else none

/-- Optional fraction part of a number token. -/
def lexFrac : List Char → List Char × List Char
  | '.' :: cs =>
    (match cs.takeWhile isDig with
     | [] => ([], '.' :: cs)
     | ds => ('.' :: ds, cs.dropWhile isDig))
  | l => ([], l)

/-- Optional exponent part of a number token. -/
def lexExp : List Char → List Char × List Char
  | [] => ([], [])
  | e :: rest =>
    if e = 'e' ∨ e = 'E' then
      match rest with
      | [] => ([], [e])
      | s :: rest2 =>
        if s = '+' ∨ s = '-' then
          match rest2.takeWhile isDig with
          | [] => ([], e :: rest)
          | ds => (e :: s :: ds, rest2.dropWhile isDig)
        else
          match rest.takeWhile isDig with
          | [] => ([], e :: rest)
          | ds => (e :: ds, rest.dropWhile isDig)
    else ([], e :: rest)

/-- A number token: optional minus, integer part, optional fraction and
exponent.  Returns the lexeme and the remaining text. -/
def lexNumber (l : List Char) : Option (List Char × List Char) :=
  match l with
  | '-' :: r =>
    (match lexInt r with
     | none => none
     | some (ip, l2) =>
       let fp := lexFrac l2
       let ep := lexExp fp.2
       some ('-' :: (ip ++ fp.1 ++ ep.1), ep.2))
  | _ =>
    match lexInt l with
    | none => none
    | some (ip, l2) =>
      let fp := lexFrac l2
      let ep := lexExp fp.2
      some (ip ++ fp.1 ++ ep.1, ep.2)

/-- JSON whitespace. -/
def isJsonWs (c : Char) : Bool := c = ' ' ∨ c = '\t' ∨ c = '\n' ∨ c = '\r'

/-- Skip whitespace between tokens. -/
def skipWs (l : List Char) : List Char := l.dropWhile isJsonWs

/-- Insertion into a Python dict held as an ordered association list: an
existing key keeps its position and takes the new value, a new key is
appended. -/
def dictInsert : List (String × Json) → String → Json → List (String × Json)
  | [], k, v => [(k, v)]
  | (k0, v0) :: rest, k, v =>
    if k0 = k then (k0, v) :: rest else (k0, v0) :: dictInsert rest k v

/-- Parser state: a value is expected, an object or array has just been
opened, or members or elements are being accumulated. -/
inductive PMode where
  | value
  | objStart
  | members (acc : List (String × Json))
  | arrStart
  | elems (acc : List Json)

/-- One step of the value grammar, with the recursive continuation
passed in: strings, objects, arrays, the literals true, false and null,
the constants NaN, Infinity and -Infinity, and number tokens. -/
def stepValue (rec : PMode → List Char → Option (Json × List Char)) :
    List Char → Option (Json × List Char)
  | '"' :: cs =>
    (match lexStr cs with
     | some (content, rest) => some (Json.str (String.mk content), rest)
     | none => none)
  | '\x7b' :: cs => rec PMode.objStart (skipWs cs)
  | '[' :: cs => rec PMode.arrStart (skipWs cs)
  | 't' :: 'r' :: 'u' :: 'e' :: cs => some (Json.bool true, cs)
  | 'f' :: 'a' :: 'l' :: 's' :: 'e' :: cs => some (Json.bool false, cs)
  | 'n' :: 'u' :: 'l' :: 'l' :: cs => some (Json.null, cs)
  | 'N' :: 'a' :: 'N' :: cs => some (Json.num "NaN", cs)
  | 'I' :: 'n' :: 'f' :: 'i' :: 'n' :: 'i' :: 't' :: 'y' :: cs =>
    some (Json.num "Infinity", cs)
  | '-' :: 'I' :: 'n' :: 'f' :: 'i' :: 'n' :: 'i' :: 't' :: 'y' :: cs =>
    some (Json.num "-Infinity", cs)
  | l =>
    match lexNumber l with
    | some (lex, rest) => some (Json.num (String.mk lex), rest)
    | none => none

/-- One step after an opening brace: an empty object, or its members. -/
def stepObjStart (rec : PMode → List Char → Option (Json × List Char)) :
    List Char → Option (Json × List Char)
  | '\x7d' :: cs => some (Json.obj [], cs)
  | l => rec (PMode.members []) l

/-- One step of the member list of an object: a key string, a colon, a
value, then either a comma and further members or the closing brace. -/
def stepMembers (rec : PMode → List Char → Option (Json × List Char))
    (acc : List (String × Json)) : List Char → Option (Json × List Char)
  | '"' :: cs =>
    (match lexStr cs with
     | none => none
     | some (key, r1) =>
       match skipWs r1 with
       | ':' :: r2 =>
         (match rec PMode.value (skipWs r2) with
          | none => none
          | some (v, r3) =>
            match skipWs r3 with
            | ',' :: r4 => rec (PMode.members (dictInsert acc (String.mk key) v)) (skipWs r4)
            | '\x7d' :: r4 => some (Json.obj (dictInsert acc (String.mk key) v), r4)
            | _ => none)
       | _ => none)
  | _ => none

/-- One step after an opening bracket: an empty array, or its
elements. -/
def stepArrStart (rec : PMode → List Char → Option (Json × List Char)) :
    List Char → Option (Json × List Char)
  | ']' :: cs => some (Json.arr [], cs)
  | l => rec (PMode.elems []) l

/-- One step of the element list of an array: a value, then either a
comma and further elements or the closing bracket. -/
def stepElems (rec : PMode → List Char → Option (Json × List Char))
    (acc : List Json) (l : List Char) : Option (Json × List Char) :=
  match rec PMode.value l with
  | none => none
  | some (v, r) =>
    match skipWs r with
    | ',' :: r2 => rec (PMode.elems (acc ++ [v])) (skipWs r2)
    | ']' :: r2 => some (Json.arr (acc ++ [v]), r2)
    | _ => none

/-- Fueled recursive-descent parser for JSON texts, following the
grammar accepted by json.loads, with whitespace between tokens. -/
def parseStep : Nat → PMode → List Char → Option (Json × List Char)
  | 0, _, _ => none
  | Nat.succ f, PMode.value, l => stepValue (parseStep f) l
  | Nat.succ f, PMode.objStart, l => stepObjStart (parseStep f) l
  | Nat.succ f, PMode.members acc, l => stepMembers (parseStep f) acc l
  | Nat.succ f, PMode.arrStart, l => stepArrStart (parseStep f) l
  | Nat.succ f, PMode.elems acc, l => stepElems (parseStep f) acc l

/-- Embedding of json.loads: skip leading whitespace, parse one value
with ample fuel, and require that only whitespace remains. -/
def json_loads (s : String) : Option Json :=
  match parseStep (2 * s.toList.length + 16) PMode.value (skipWs s.toList) with
  | some (v, rest) => if skipWs rest = [] then some v else none
  | none => none

example : json_loads "true" = some (Json.bool true) := by rfl
example : json_loads "  \x7b\x7d " = some (Json.obj []) := by rfl
example : json_loads "\x7b\"a\": 1\x7d" = some (Json.obj [("a", Json.num "1")]) := by rfl
example : json_loads "\x7b\"a\": \"x\", \"b\": [1.5e-3, null, NaN]\x7d"
    = some (Json.obj [("a", Json.str "x"),
        ("b", Json.arr [Json.num "1.5e-3", Json.null, Json.num "NaN"])]) := by rfl
example : json_loads "\x7b\"a\":1,\"b\":2,\"a\":3\x7d"
    = some (Json.obj [("a", Json.num "3"), ("b", Json.num "2")]) := by rfl
example : json_loads "\x7b\"a\": 1\x7d extra" = none := by rfl
example : json_loads "01" = none := by rfl
example : json_loads "\"a\\u00e9\\ud83d\\ude00b\"" = some (Json.str "aé😀b") := by rfl
example : json_loads "\"a\nb\"" = none := by rfl

/-! The reply-parsing step of analyze_paper_with_ai: the greedy search
for a brace-delimited substring, decoding, and the raw-text fallback. -/

/-- The substring matched by the greedy brace pattern of the source:
from the first opening brace to the last closing brace, provided a
closing brace occurs after the first opening brace. -/
def extractBraces (l : List Char) : Option (List Char) :=
  match l.dropWhile (fun c => c ≠ '\x7b') with
  | [] => none
  | c :: rest =>
    if ((c :: rest).reverse.dropWhile (fun c2 => c2 ≠ '\x7d')) = [] then none
    else some ((c :: rest).reverse.dropWhile (fun c2 => c2 ≠ '\x7d')).reverse

/-- Embedding of the reply-parsing step of analyze_paper_with_ai: decode
the brace-delimited substring when one is found and it decodes, and
otherwise fall back to the one-key raw mapping. -/
def parseResponse (response_text : String) : Json :=
  match extractBraces response_text.toList with
  | none => Json.obj [("raw_analysis", Json.str response_text)]
  | some sub =>
    match json_loads (String.mk sub) with
    | some j => j
    | none => Json.obj [("raw_analysis", Json.str response_text)]

example : extractBraces ("no braces at all").toList = none := by rfl
example : extractBraces ("a \x7b x \x7d b \x7d c").toList = some "\x7b x \x7d b \x7d".toList := by
  rfl
example : parseResponse "plain reply" = Json.obj [("raw_analysis", Json.str "plain reply")] := by
  rfl
example : parseResponse "note \x7b\"a\": true\x7d" = Json.obj [("a", Json.bool true)] := by rfl
example : parseResponse "\x7b\"a\": true\x7d trailing \x7d"
    = Json.obj [("raw_analysis", Json.str "\x7b\"a\": true\x7d trailing \x7d")] := by rfl

/-! The presenter display_analysis: seven fixed sections rendered in
order, each as a subheader, a written value, and a divider. -/

/-- One visible output of the presenter. -/
inductive OutItem where
  | subheader (title : String)
  | write (v : Json)
  | divider

/-- The fixed section list of display_analysis, in source order. -/
def sectionsList : List (String × String) :=
  [("📚 Background of the Study", "background"),
   ("🎯 Research Objectives and Hypothesis", "objectives_and_hypothesis"),
   ("🔬 Methodology", "methodology"),
   ("📊 Results and Findings", "results_and_findings"),
   ("💡 Discussion and Interpretation", "discussion_and_interpretation"),
   ("✨ Contributions to the Field", "contributions"),
   ("🏆 Achievements and Significance", "achievements_and_significance")]

/-- Key lookup in a Python dict held as an ordered association list. -/
def lookupKey (analysis : List (String × Json)) (k : String) : Option Json :=
  match analysis with
  | [] => none
  | (k0, v0) :: rest => if k0 = k then some v0 else lookupKey rest k

/-- Embedding of display_analysis from src/app.py: for each section in
order, a subheader, then the value of the key when present and the
sentinel text when absent, then a divider. -/
def display_analysis (analysis : List (String × Json)) : List OutItem :=
  (sectionsList.map fun ts =>
    [OutItem.subheader ts.1,
     OutItem.write (match lookupKey analysis ts.2 with
       | some v => v
       | none => Json.str "_Not available_"),
     OutItem.divider]).flatten

/-! The export structure of the download button: json.dumps of the dict
holding source, timestamp and analysis, with a two-space indent, in the
exact concrete syntax the Python encoder emits. -/

/-- Lowercase hexadecimal digit character for a value below sixteen. -/
def hexDigit (k : Nat) : Char :=
  if k < 10 then Char.ofNat (48 + k) else Char.ofNat (87 + k)

/-- Four lowercase hexadecimal digits of a value below two to the
sixteen. -/
def hex4 (n : Nat) : List Char :=
  [hexDigit (n / 4096 % 16), hexDigit (n / 256 % 16), hexDigit (n / 16 % 16), hexDigit (n % 16)]

/-- Escape sequence (or the character itself) emitted by the Python
encoder with ensure_ascii for one character: named escapes for the
quote, backslash and common control characters, other control and all
non-ASCII characters as lowercase unicode escapes, astral characters as
surrogate pairs. -/
def escapeChar (c : Char) : List Char :=
  if c = '"' then ['\\', '"']
  else if c = '\\' then ['\\', '\\']
  else if c = '\n' then ['\\', 'n']
  else if c = '\r' then ['\\', 'r']
  else if c = '\t' then ['\\', 't']
  else if c.toNat = 8 then ['\\', 'b']
  else if c.toNat = 12 then ['\\', 'f']
  else if 0x20 ≤ c.toNat ∧ c.toNat ≤ 0x7E then [c]
  else if c.toNat < 0x10000 then '\\' :: 'u' :: hex4 c.toNat
  else
    '\\' :: 'u' :: (hex4 (0xD800 + (c.toNat - 0x10000) / 1024)
      ++ '\\' :: 'u' :: hex4 (0xDC00 + (c.toNat - 0x10000) % 1024))

/-- A JSON string literal for the given text, as the Python encoder
emits it. -/
def encChars (s : String) : List Char :=
  '"' :: ((s.toList.map escapeChar).flatten ++ ['"'])

/-- Members of the inner analysis object at nesting depth two: items
separated by a comma, a newline and four spaces of indent. -/
def innerItemsChars : List (String × String) → List Char
  | [] => []
  | [p] => encChars p.1 ++ ':' :: ' ' :: encChars p.2
  | p :: ps =>
    encChars p.1 ++ ':' :: ' ' :: encChars p.2
      ++ ',' :: '\n' :: ' ' :: ' ' :: ' ' :: ' ' :: innerItemsChars ps

/-- The serialized analysis object, empty or indented at depth two. -/
def analysisChars (a : List (String × String)) : List Char :=
  match a with
  | [] => ['\x7b', '\x7d']
  | _ =>
    '\x7b' :: '\n' :: ' ' :: ' ' :: ' ' :: ' ' ::
      (innerItemsChars a ++ '\n' :: ' ' :: ' ' :: ['\x7d'])

/-- The serialized download payload: json.dumps with indent 2 of the
dict holding source, timestamp and analysis. -/
def downloadDataChars (source timestamp : String) (analysis : List (String × String)) :
    List Char :=
  '\x7b' :: '\n' :: ' ' :: ' ' ::
    (encChars "source" ++ ':' :: ' ' ::
      (encChars source ++ ',' :: '\n' :: ' ' :: ' ' ::
        (encChars "timestamp" ++ ':' :: ' ' ::
          (encChars timestamp ++ ',' :: '\n' :: ' ' :: ' ' ::
            (encChars "analysis" ++ ':' :: ' ' ::
              (analysisChars analysis ++ '\n' :: ['\x7d']))))))

/-- Embedding of the json.dumps call of the download button. -/
def download_data_json (source timestamp : String) (analysis : List (String × String)) :
    String :=
  String.mk (downloadDataChars source timestamp analysis)

example : download_data_json "S" "T" [("a", "x"), ("b", "y")]
    = "\x7b\n  \"source\": \"S\",\n  \"timestamp\": \"T\",\n  \"analysis\": \x7b\n    \"a\": \"x\",\n    \"b\": \"y\"\n  \x7d\n\x7d" := by rfl
example : download_data_json "S" "T" []
    = "\x7b\n  \"source\": \"S\",\n  \"timestamp\": \"T\",\n  \"analysis\": \x7b\x7d\n\x7d" := by
  rfl
example : json_loads (download_data_json "S é" "T\n" [("a", "x\"y")])
    = some (Json.obj [("source", Json.str "S é"), ("timestamp", Json.str "T\n"),
        ("analysis", Json.obj [("a", Json.str "x\"y")])]) := by rfl

/-! Round trip of the export serialization (C8): the Python encoder
output for one character is decoded back to that character by the string
lexer, and the serialized download payload parses back to the expected
object. -/

theorem hexVal_hexDigit {k : Nat} (h : k < 16) : hexVal (hexDigit k) = some k := by
  have hfin : ∀ k : Fin 16, hexVal (hexDigit k.val) = some k.val := by decide
  exact hfin ⟨k, h⟩

theorem hex_recompose {n : Nat} (h : n < 65536) :
    4096 * (n / 4096 % 16) + 256 * (n / 256 % 16) + 16 * (n / 16 % 16) + n % 16 = n := by
  omega

theorem lexStr_u_arm (a b d e : Char) (cs : List Char) :
    lexStr ('\\' :: 'u' :: a :: b :: d :: e :: cs) =
      match hexVal a, hexVal b, hexVal d, hexVal e with
      | some ha, some hb, some hd, some he =>
        let n := 4096 * ha + 256 * hb + 16 * hd + he
        if 0xD800 ≤ n ∧ n ≤ 0xDBFF then
          match cs with
          | '\\' :: 'u' :: a2 :: b2 :: d2 :: e2 :: cs2 =>
            (match hexVal a2, hexVal b2, hexVal d2, hexVal e2 with
             | some ha2, some hb2, some hd2, some he2 =>
               let m := 4096 * ha2 + 256 * hb2 + 16 * hd2 + he2
               if 0xDC00 ≤ m ∧ m ≤ 0xDFFF then
                 match lexStr cs2 with
                 | some (content, rest) =>
                   some (Char.ofNat (0x10000 + 1024 * (n - 0xD800) + (m - 0xDC00)) :: content,
                     rest)
                 | none => none
               else none
             | _, _, _, _ => none)
          | _ => none
        else if 0xDC00 ≤ n ∧ n ≤ 0xDFFF then none
        else
          match lexStr cs with
          | some (content, rest) => some (Char.ofNat n :: content, rest)
          | none => none
      | _, _, _, _ => none := by
  conv_lhs => rw [lexStr.eq_def]
  rfl

theorem lexStr_u_single {n : Nat} (hn : n < 0x10000)
    (hs1 : ¬ (0xD800 ≤ n ∧ n ≤ 0xDBFF)) (hs2 : ¬ (0xDC00 ≤ n ∧ n ≤ 0xDFFF))
    (tail : List Char) :
    lexStr ('\\' :: 'u' :: (hex4 n ++ tail)) =
      match lexStr tail with
      | some (content, r) => some (Char.ofNat n :: content, r)
      | none => none := by
  show lexStr ('\\' :: 'u' :: hexDigit (n / 4096 % 16) :: hexDigit (n / 256 % 16)
    :: hexDigit (n / 16 % 16) :: hexDigit (n % 16) :: tail) = _
  rw [lexStr_u_arm, hexVal_hexDigit (Nat.mod_lt _ (by norm_num)),
    hexVal_hexDigit (Nat.mod_lt _ (by norm_num)),
    hexVal_hexDigit (Nat.mod_lt _ (by norm_num)),
    hexVal_hexDigit (Nat.mod_lt _ (by norm_num))]
  show (if 0xD800 ≤ 4096 * (n / 4096 % 16) + 256 * (n / 256 % 16) + 16 * (n / 16 % 16) + n % 16
        ∧ 4096 * (n / 4096 % 16) + 256 * (n / 256 % 16) + 16 * (n / 16 % 16) + n % 16
          ≤ 0xDBFF then _
      else _) = _
  rw [hex_recompose hn, if_neg hs1, if_neg hs2]

theorem lexStr_u_pair {n m : Nat}
    (hs1 : 0xD800 ≤ n ∧ n ≤ 0xDBFF) (hs2 : 0xDC00 ≤ m ∧ m ≤ 0xDFFF)
    (tail : List Char) :
    lexStr ('\\' :: 'u' :: (hex4 n ++ '\\' :: 'u' :: (hex4 m ++ tail))) =
      match lexStr tail with
      | some (content, r) =>
        some (Char.ofNat (0x10000 + 1024 * (n - 0xD800) + (m - 0xDC00)) :: content, r)
      | none => none := by
  have hn : n < 65536 := by omega
  have hm : m < 65536 := by omega
  show lexStr ('\\' :: 'u' :: hexDigit (n / 4096 % 16) :: hexDigit (n / 256 % 16)
    :: hexDigit (n / 16 % 16) :: hexDigit (n % 16)
    :: ('\\' :: 'u' :: hexDigit (m / 4096 % 16) :: hexDigit (m / 256 % 16)
      :: hexDigit (m / 16 % 16) :: hexDigit (m % 16) :: tail)) = _
  rw [lexStr_u_arm, hexVal_hexDigit (Nat.mod_lt _ (by norm_num)),
    hexVal_hexDigit (Nat.mod_lt _ (by norm_num)),
    hexVal_hexDigit (Nat.mod_lt _ (by norm_num)),
    hexVal_hexDigit (Nat.mod_lt _ (by norm_num))]
  show (if 0xD800 ≤ 4096 * (n / 4096 % 16) + 256 * (n / 256 % 16) + 16 * (n / 16 % 16) + n % 16
        ∧ 4096 * (n / 4096 % 16) + 256 * (n / 256 % 16) + 16 * (n / 16 % 16) + n % 16
          ≤ 0xDBFF then _
      else _) = _
  rw [hex_recompose hn, if_pos hs1]
  show (match hexVal (hexDigit (m / 4096 % 16)), hexVal (hexDigit (m / 256 % 16)),
      hexVal (hexDigit (m / 16 % 16)), hexVal (hexDigit (m % 16)) with
    | some ha2, some hb2, some hd2, some he2 =>
      let m0 := 4096 * ha2 + 256 * hb2 + 16 * hd2 + he2
      if 0xDC00 ≤ m0 ∧ m0 ≤ 0xDFFF then
        match lexStr tail with
        | some (content, rest) =>
          some (Char.ofNat (0x10000 + 1024 * (n - 0xD800) + (m0 - 0xDC00)) :: content, rest)
        | none => none
      else none
    | _, _, _, _ => none) = _
  rw [hexVal_hexDigit (Nat.mod_lt _ (by norm_num)),
    hexVal_hexDigit (Nat.mod_lt _ (by norm_num)),
    hexVal_hexDigit (Nat.mod_lt _ (by norm_num)),
    hexVal_hexDigit (Nat.mod_lt _ (by norm_num))]
  show (if 0xDC00 ≤ 4096 * (m / 4096 % 16) + 256 * (m / 256 % 16) + 16 * (m / 16 % 16) + m % 16
        ∧ 4096 * (m / 4096 % 16) + 256 * (m / 256 % 16) + 16 * (m / 16 % 16) + m % 16
          ≤ 0xDFFF then _
      else _) = _
  rw [hex_recompose hm, if_pos hs2]

theorem lexStr_raw {c : Char} (h1 : c ≠ '"') (h2 : c ≠ '\\') (h3 : ¬ c.toNat < 0x20)
    (tail : List Char) :
    lexStr (c :: tail) =
      match lexStr tail with
      | some (content, r) => some (c :: content, r)
      | none => none := by
  rw [lexStr.eq_def]
  split
  · rename_i heq
    exact absurd heq (by simp)
  · rename_i cs heq
    exact absurd ((List.cons.injEq _ _ _ _).mp heq).1 h1
  · rename_i a b d e cs heq
    exact absurd ((List.cons.injEq _ _ _ _).mp heq).1 h2
  · rename_i e cs heq
    exact absurd ((List.cons.injEq _ _ _ _).mp heq).1 h2
  · rename_i heq
    exact absurd ((List.cons.injEq _ _ _ _).mp heq).1 h2
  · rename_i c0 cs0 hq hu he hbs heq
    obtain ⟨rfl, rfl⟩ : c = c0 ∧ tail = cs0 := by
      have h := (List.cons.injEq _ _ _ _).mp heq
      exact ⟨h.1, h.2⟩
    rw [if_neg h3]

theorem lexStr_esc_arm {e : Char} {c2 : Char} (hne : e ≠ 'u') (hesc : escChar e = some c2)
    (tail : List Char) :
    lexStr ('\\' :: e :: tail) =
      match lexStr tail with
      | some (content, r) => some (c2 :: content, r)
      | none => none := by
  rw [lexStr.eq_def]
  split
  · rename_i heq
    exact absurd heq (by simp)
  · rename_i cs heq
    have h := (List.cons.injEq _ _ _ _).mp heq
    exact absurd h.1 (by decide)
  · rename_i a b d e2 cs heq
    have h := (List.cons.injEq _ _ _ _).mp heq
    have h2 := (List.cons.injEq _ _ _ _).mp h.2
    exact absurd h2.1 hne
  · rename_i e2 cs hnu heq
    have h := (List.cons.injEq _ _ _ _).mp heq
    have h2 := (List.cons.injEq _ _ _ _).mp h.2
    obtain ⟨rfl, rfl⟩ : e = e2 ∧ tail = cs := ⟨h2.1, h2.2⟩
    rw [hesc]
  · rename_i heq
    have h := (List.cons.injEq _ _ _ _).mp heq
    exact absurd h.2 (by simp)
  · rename_i c0 cs0 hq hu he hbs heq
    have h := (List.cons.injEq _ _ _ _).mp heq
    exact (he e tail h.1.symm h.2.symm).elim

theorem char_valid_toNat (c : Char) :
    c.toNat < 0xD800 ∨ (0xDFFF < c.toNat ∧ c.toNat < 0x110000) := c.valid

theorem lexStr_enc (l : List Char) (rest : List Char) :
    lexStr ((l.map escapeChar).flatten ++ '"' :: rest) = some (l, rest) := by
  induction l with
  | nil => rfl
  | cons c cs ih =>
    have hv := char_valid_toNat c
    have hstep : ((c :: cs).map escapeChar).flatten ++ '"' :: rest
        = escapeChar c ++ ((cs.map escapeChar).flatten ++ '"' :: rest) := by
      simp [List.append_assoc]
    rw [hstep]
    by_cases h1 : c = '"'
    · subst h1
      rw [show escapeChar '"' = ['\\', '"'] from rfl]
      simp only [List.cons_append, List.nil_append]
      rw [lexStr_esc_arm (by decide) (show escChar '"' = some '"' from rfl), ih]
    · by_cases h2 : c = '\\'
      · subst h2
        rw [show escapeChar '\\' = ['\\', '\\'] from rfl]
        simp only [List.cons_append, List.nil_append]
        rw [lexStr_esc_arm (by decide) (show escChar '\\' = some '\\' from rfl), ih]
      · by_cases h3 : c = '\n'
        · subst h3
          rw [show escapeChar '\n' = ['\\', 'n'] from rfl]
          simp only [List.cons_append, List.nil_append]
          rw [lexStr_esc_arm (by decide) (show escChar 'n' = some '\n' from rfl), ih]
        · by_cases h4 : c = '\r'
          · subst h4
            rw [show escapeChar '\r' = ['\\', 'r'] from rfl]
            simp only [List.cons_append, List.nil_append]
            rw [lexStr_esc_arm (by decide) (show escChar 'r' = some '\r' from rfl), ih]
          · by_cases h5 : c = '\t'
            · subst h5
              rw [show escapeChar '\t' = ['\\', 't'] from rfl]
              simp only [List.cons_append, List.nil_append]
              rw [lexStr_esc_arm (by decide) (show escChar 't' = some '\t' from rfl), ih]
            · by_cases h6 : c.toNat = 8
              · have hesc : escapeChar c = ['\\', 'b'] := by
                  unfold escapeChar
                  rw [if_neg h1, if_neg h2, if_neg h3, if_neg h4, if_neg h5, if_pos h6]
                rw [hesc]
                simp only [List.cons_append, List.nil_append]
                rw [lexStr_esc_arm (by decide)
                  (show escChar 'b' = some (Char.ofNat 8) from rfl), ih]
                rw [show Char.ofNat 8 = c from by rw [← h6, Char.ofNat_toNat]]
              · by_cases h7 : c.toNat = 12
                · have hesc : escapeChar c = ['\\', 'f'] := by
                    unfold escapeChar
                    rw [if_neg h1, if_neg h2, if_neg h3, if_neg h4, if_neg h5, if_neg h6,
                      if_pos h7]
                  rw [hesc]
                  simp only [List.cons_append, List.nil_append]
                  rw [lexStr_esc_arm (by decide)
                    (show escChar 'f' = some (Char.ofNat 12) from rfl), ih]
                  rw [show Char.ofNat 12 = c from by rw [← h7, Char.ofNat_toNat]]
                · by_cases h8 : 0x20 ≤ c.toNat ∧ c.toNat ≤ 0x7E
                  · have hesc : escapeChar c = [c] := by
                      unfold escapeChar
                      rw [if_neg h1, if_neg h2, if_neg h3, if_neg h4, if_neg h5, if_neg h6,
                        if_neg h7, if_pos h8]
                    rw [hesc]
                    simp only [List.cons_append, List.nil_append]
                    rw [lexStr_raw h1 h2 (by omega) _, ih]
                  · by_cases h9 : c.toNat < 0x10000
                    · have hesc : escapeChar c = '\\' :: 'u' :: hex4 c.toNat := by
                        unfold escapeChar
                        rw [if_neg h1, if_neg h2, if_neg h3, if_neg h4, if_neg h5, if_neg h6,
                          if_neg h7, if_neg h8, if_pos h9]
                      rw [hesc]
                      simp only [List.cons_append, List.append_assoc]
                      rw [lexStr_u_single h9 (by omega) (by omega) _, ih]
                      rw [Char.ofNat_toNat]
                    · have hesc : escapeChar c
                          = '\\' :: 'u' :: (hex4 (0xD800 + (c.toNat - 0x10000) / 1024)
                            ++ '\\' :: 'u' :: hex4 (0xDC00 + (c.toNat - 0x10000) % 1024)) := by
                        unfold escapeChar
                        rw [if_neg h1, if_neg h2, if_neg h3, if_neg h4, if_neg h5, if_neg h6,
                          if_neg h7, if_neg h8, if_neg h9]
                      rw [hesc]
                      simp only [List.cons_append, List.append_assoc]
                      rw [lexStr_u_pair (n := 0xD800 + (c.toNat - 0x10000) / 1024)
                        (m := 0xDC00 + (c.toNat - 0x10000) % 1024)
                        ⟨by omega, by omega⟩ ⟨by omega, by omega⟩ _, ih]
                      rw [show (0x10000 + 1024 * (0xD800 + (c.toNat - 0x10000) / 1024 - 0xD800)
                          + (0xDC00 + (c.toNat - 0x10000) % 1024 - 0xDC00)) = c.toNat
                        from by omega]
                      rw [Char.ofNat_toNat]

theorem parseStep_str (f : Nat) (s : String) (rest : List Char) :
    parseStep (f + 1) PMode.value (encChars s ++ rest) = some (Json.str s, rest) := by
  have e : encChars s ++ rest
      = '"' :: ((s.toList.map escapeChar).flatten ++ '"' :: rest) := by
    simp [encChars]
  rw [e]
  have step : parseStep (f + 1) PMode.value
      ('"' :: ((s.toList.map escapeChar).flatten ++ '"' :: rest))
      = match lexStr ((s.toList.map escapeChar).flatten ++ '"' :: rest) with
        | some (content, r) => some (Json.str (String.mk content), r)
        | none => none := rfl
  rw [step, lexStr_enc]
  rfl

theorem parseStep_members_step (f : Nat) (acc : List (String × Json)) (cs : List Char) :
    parseStep (f + 1) (PMode.members acc) ('"' :: cs) =
      match lexStr cs with
      | none => none
      | some (key, r1) =>
        match skipWs r1 with
        | ':' :: r2 =>
          (match parseStep f PMode.value (skipWs r2) with
           | none => none
           | some (v, r3) =>
             match skipWs r3 with
             | ',' :: r4 =>
               parseStep f (PMode.members (dictInsert acc (String.mk key) v)) (skipWs r4)
             | '\x7d' :: r4 => some (Json.obj (dictInsert acc (String.mk key) v), r4)
             | _ => none)
        | _ => none := rfl

theorem parseStep_value_obrace (f : Nat) (cs : List Char) :
    parseStep (f + 1) PMode.value ('\x7b' :: cs) = parseStep f PMode.objStart (skipWs cs) := rfl

theorem parseStep_objStart_close (f : Nat) (cs : List Char) :
    parseStep (f + 1) PMode.objStart ('\x7d' :: cs) = some (Json.obj [], cs) := rfl

theorem parseStep_objStart_go (f : Nat) (c : Char) (cs : List Char) (h : c ≠ '\x7d') :
    parseStep (f + 1) PMode.objStart (c :: cs) = parseStep f (PMode.members []) (c :: cs) := by
  show stepObjStart (parseStep f) (c :: cs) = _
  rw [stepObjStart.eq_def]
  split
  · rename_i heq
    exact absurd ((List.cons.injEq _ _ _ _).mp heq).1 h
  · rfl

theorem dictInsert_not_mem {l : List (String × Json)} {k : String} {v : Json}
    (h : k ∉ l.map Prod.fst) : dictInsert l k v = l ++ [(k, v)] := by
  induction l with
  | nil => rfl
  | cons p restl ih =>
    simp only [List.map_cons, List.mem_cons, not_or] at h
    have hne : p.1 ≠ k := fun he => h.1 he.symm
    obtain ⟨k0, v0⟩ := p
    show (if k0 = k then (k0, v) :: restl else (k0, v0) :: dictInsert restl k v)
      = (k0, v0) :: restl ++ [(k, v)]
    rw [if_neg hne, ih h.2]
    rfl

theorem parseStep_members_keyval (f : Nat) (acc : List (String × Json)) (key : String)
    (vrest : List Char) (hv : skipWs vrest = vrest) :
    parseStep (f + 1) (PMode.members acc) (encChars key ++ ':' :: ' ' :: vrest) =
      match parseStep f PMode.value vrest with
      | none => none
      | some (v, r3) =>
        match skipWs r3 with
        | ',' :: r4 => parseStep f (PMode.members (dictInsert acc key v)) (skipWs r4)
        | '\x7d' :: r4 => some (Json.obj (dictInsert acc key v), r4)
        | _ => none := by
  have e : encChars key ++ ':' :: ' ' :: vrest
      = '"' :: ((key.toList.map escapeChar).flatten ++ '"' :: (':' :: ' ' :: vrest)) := by
    simp [encChars]
  rw [e, parseStep_members_step, lexStr_enc]
  show (match skipWs (':' :: ' ' :: vrest) with
    | ':' :: r2 =>
      (match parseStep f PMode.value (skipWs r2) with
       | none => none
       | some (v, r3) =>
         match skipWs r3 with
         | ',' :: r4 => parseStep f (PMode.members (dictInsert acc key v)) (skipWs r4)
         | '\x7d' :: r4 => some (Json.obj (dictInsert acc key v), r4)
         | _ => none)
    | _ => none) = _
  rw [show skipWs (':' :: ' ' :: vrest) = ':' :: ' ' :: vrest from rfl]
  show (match parseStep f PMode.value (skipWs (' ' :: vrest)) with
    | none => none
    | some (v, r3) =>
      match skipWs r3 with
      | ',' :: r4 => parseStep f (PMode.members (dictInsert acc key v)) (skipWs r4)
      | '\x7d' :: r4 => some (Json.obj (dictInsert acc key v), r4)
      | _ => none) = _
  rw [show skipWs (' ' :: vrest) = skipWs vrest from rfl, hv]

theorem skipWs_innerItems (q : String × String) (qs : List (String × String))
    (T : List Char) :
    skipWs (innerItemsChars (q :: qs) ++ T) = innerItemsChars (q :: qs) ++ T := by
  cases qs <;> rfl

theorem parseStep_members_list (p : String × String) (ps : List (String × String))
    (acc : List (String × Json)) (after : List Char) (g : Nat)
    (hfresh : ∀ q ∈ p :: ps, q.1 ∉ acc.map Prod.fst)
    (hnodup : ((p :: ps).map Prod.fst).Nodup) :
    parseStep (g + ps.length + 2) (PMode.members acc)
      (innerItemsChars (p :: ps) ++ '\n' :: ' ' :: ' ' :: '\x7d' :: after)
      = some (Json.obj (acc ++ (p :: ps).map fun q => (q.1, Json.str q.2)), after) := by
  induction ps generalizing p acc g with
  | nil =>
    have hp1 : p.1 ∉ acc.map Prod.fst := hfresh p (by simp)
    have e : innerItemsChars [p] ++ '\n' :: ' ' :: ' ' :: '\x7d' :: after
        = encChars p.1 ++ ':' :: ' '
          :: (encChars p.2 ++ ('\n' :: ' ' :: ' ' :: '\x7d' :: after)) := by
      show (encChars p.1 ++ ':' :: ' ' :: encChars p.2)
          ++ '\n' :: ' ' :: ' ' :: '\x7d' :: after = _
      simp [List.append_assoc]
    rw [e]
    show parseStep ((g + List.length ([] : List (String × String)) + 1) + 1)
      (PMode.members acc) _ = _
    rw [parseStep_members_keyval _ _ _ _ rfl,
      parseStep_str (g + List.length ([] : List (String × String))) p.2 _]
    show some (Json.obj (dictInsert acc p.1 (Json.str p.2)), after) = _
    rw [dictInsert_not_mem hp1]
    rfl
  | cons q qs ih =>
    have hp1 : p.1 ∉ acc.map Prod.fst := hfresh p (by simp)
    have hnd := List.nodup_cons.mp hnodup
    have e : innerItemsChars (p :: q :: qs) ++ '\n' :: ' ' :: ' ' :: '\x7d' :: after
        = encChars p.1 ++ ':' :: ' '
          :: (encChars p.2 ++ (',' :: '\n' :: ' ' :: ' ' :: ' ' :: ' '
            :: (innerItemsChars (q :: qs) ++ '\n' :: ' ' :: ' ' :: '\x7d' :: after))) := by
      show (encChars p.1 ++ ':' :: ' ' :: encChars p.2
          ++ ',' :: '\n' :: ' ' :: ' ' :: ' ' :: ' ' :: innerItemsChars (q :: qs))
          ++ '\n' :: ' ' :: ' ' :: '\x7d' :: after = _
      simp [List.append_assoc]
    rw [e]
    show parseStep ((g + (q :: qs).length + 1) + 1) (PMode.members acc) _ = _
    rw [parseStep_members_keyval _ _ _ _ rfl,
      parseStep_str (g + (q :: qs).length) p.2 _]
    show parseStep (g + (q :: qs).length + 1)
      (PMode.members (dictInsert acc p.1 (Json.str p.2)))
      (skipWs ('\n' :: ' ' :: ' ' :: ' ' :: ' '
        :: (innerItemsChars (q :: qs) ++ '\n' :: ' ' :: ' ' :: '\x7d' :: after))) = _
    rw [show skipWs ('\n' :: ' ' :: ' ' :: ' ' :: ' '
        :: (innerItemsChars (q :: qs) ++ '\n' :: ' ' :: ' ' :: '\x7d' :: after))
      = skipWs (innerItemsChars (q :: qs) ++ '\n' :: ' ' :: ' ' :: '\x7d' :: after) from rfl]
    rw [skipWs_innerItems]
    rw [dictInsert_not_mem hp1]
    rw [show g + (q :: qs).length + 1 = g + qs.length + 2 from rfl]
    rw [ih q (acc ++ [(p.1, Json.str p.2)]) g ?hfr ?hnd2]
    case hfr =>
      intro w hw
      simp only [List.map_append, List.map_cons, List.map_nil, List.mem_append,
        List.mem_cons, List.not_mem_nil, or_false, not_or]
      refine ⟨fun hmem => hfresh w (List.mem_cons_of_mem _ hw) hmem, fun heq => ?_⟩
      exact hnd.1 (heq ▸ List.mem_map_of_mem Prod.fst hw)
    case hnd2 => exact hnd.2
    simp

theorem skipWs_analysisChars (a : List (String × String)) (T : List Char) :
    skipWs (analysisChars a ++ T) = analysisChars a ++ T := by
  cases a <;> rfl

theorem parseStep_objStart_enc (f : Nat) (s : String) (X : List Char) :
    parseStep (f + 1) PMode.objStart (encChars s ++ X)
      = parseStep f (PMode.members []) (encChars s ++ X) := by
  have e : encChars s ++ X = '"' :: ((s.toList.map escapeChar).flatten ++ '"' :: X) := by
    simp [encChars]
  rw [e, parseStep_objStart_go _ _ _ (by decide), ← e]

theorem parseStep_analysis_value (a : List (String × String)) (after : List Char) (g : Nat)
    (hnodup : (a.map Prod.fst).Nodup) :
    parseStep (g + a.length + 3) PMode.value (analysisChars a ++ after)
      = some (Json.obj (a.map fun p => (p.1, Json.str p.2)), after) := by
  cases a with
  | nil =>
    show parseStep ((g + 2) + 1) PMode.value ('\x7b' :: '\x7d' :: after) = _
    rw [parseStep_value_obrace (g + 2) _]
    rw [show skipWs ('\x7d' :: after) = '\x7d' :: after from rfl]
    show parseStep ((g + 1) + 1) PMode.objStart ('\x7d' :: after) = _
    rw [parseStep_objStart_close]
    rfl
  | cons p ps =>
    have e : analysisChars (p :: ps) ++ after
        = '\x7b' :: '\n' :: ' ' :: ' ' :: ' ' :: ' '
          :: (innerItemsChars (p :: ps) ++ '\n' :: ' ' :: ' ' :: '\x7d' :: after) := by
      show ('\x7b' :: '\n' :: ' ' :: ' ' :: ' ' :: ' '
        :: (innerItemsChars (p :: ps) ++ '\n' :: ' ' :: ' ' :: ['\x7d'])) ++ after = _
      simp [List.append_assoc]
    rw [e]
    show parseStep ((g + ps.length + 3) + 1) PMode.value _ = _
    rw [parseStep_value_obrace (g + ps.length + 3) _]
    rw [show skipWs ('\n' :: ' ' :: ' ' :: ' ' :: ' '
        :: (innerItemsChars (p :: ps) ++ '\n' :: ' ' :: ' ' :: '\x7d' :: after))
      = skipWs (innerItemsChars (p :: ps) ++ '\n' :: ' ' :: ' ' :: '\x7d' :: after) from rfl]
    rw [skipWs_innerItems]
    obtain ⟨Z, hZ⟩ : ∃ Z, innerItemsChars (p :: ps) = '"' :: Z := by
      cases ps <;> exact ⟨_, rfl⟩
    rw [hZ]
    simp only [List.cons_append]
    show parseStep ((g + ps.length + 2) + 1) PMode.objStart ('"' :: (Z ++ _)) = _
    rw [parseStep_objStart_go _ _ _ (by decide)]
    rw [show ('"' : Char) :: (Z ++ '\n' :: ' ' :: ' ' :: '\x7d' :: after)
      = ('"' :: Z) ++ '\n' :: ' ' :: ' ' :: '\x7d' :: after from rfl, ← hZ]
    rw [parseStep_members_list p ps [] after g (by simp) hnodup]
    simp

theorem innerItems_length (p : String × String) (ps : List (String × String)) :
    (p :: ps).length ≤ (innerItemsChars (p :: ps)).length := by
  induction ps generalizing p with
  | nil => simp [innerItemsChars, encChars]
  | cons q qs ih =>
    have h := ih q
    show (p :: q :: qs).length
      ≤ (encChars p.1 ++ ':' :: ' ' :: encChars p.2
        ++ ',' :: '\n' :: ' ' :: ' ' :: ' ' :: ' ' :: innerItemsChars (q :: qs)).length
    simp only [List.length_append, List.length_cons, List.length_cons] at *
    omega

theorem download_length_bound (s t : String) (a : List (String × String)) :
    a.length ≤ (downloadDataChars s t a).length := by
  cases a with
  | nil => simp
  | cons p ps =>
    have h := innerItems_length p ps
    show (p :: ps).length
      ≤ ('\x7b' :: '\n' :: ' ' :: ' '
        :: (encChars "source" ++ ':' :: ' '
          :: (encChars s ++ ',' :: '\n' :: ' ' :: ' '
            :: (encChars "timestamp" ++ ':' :: ' '
              :: (encChars t ++ ',' :: '\n' :: ' ' :: ' '
                :: (encChars "analysis" ++ ':' :: ' '
                  :: (('\x7b' :: '\n' :: ' ' :: ' ' :: ' ' :: ' '
                    :: (innerItemsChars (p :: ps) ++ '\n' :: ' ' :: ' ' :: ['\x7d']))
                    ++ '\n' :: ['\x7d']))))))).length
    simp only [List.length_append, List.length_cons] at *
    omega

theorem parseStep_download (source timestamp : String) (a : List (String × String)) (g : Nat)
    (hnodup : (a.map Prod.fst).Nodup) :
    parseStep (g + a.length + 8) PMode.value (downloadDataChars source timestamp a)
      = some (Json.obj [("source", Json.str source), ("timestamp", Json.str timestamp),
          ("analysis", Json.obj (a.map fun p => (p.1, Json.str p.2)))], []) := by
  have hsk : ∀ (s : String) (X : List Char),
      skipWs ('\n' :: ' ' :: ' ' :: (encChars s ++ X)) = encChars s ++ X := fun s X => rfl
  show parseStep ((g + a.length + 7) + 1) PMode.value
    ('\x7b' :: '\n' :: ' ' :: ' '
      :: (encChars "source" ++ ':' :: ' '
        :: (encChars source ++ ',' :: '\n' :: ' ' :: ' '
          :: (encChars "timestamp" ++ ':' :: ' '
            :: (encChars timestamp ++ ',' :: '\n' :: ' ' :: ' '
              :: (encChars "analysis" ++ ':' :: ' '
                :: (analysisChars a ++ '\n' :: ['\x7d']))))))) = _
  rw [parseStep_value_obrace (g + a.length + 7) _]
  rw [hsk]
  show parseStep ((g + a.length + 6) + 1) PMode.objStart _ = _
  rw [parseStep_objStart_enc]
  show parseStep ((g + a.length + 5) + 1) (PMode.members []) _ = _
  rw [parseStep_members_keyval _ _ _ _ rfl]
  rw [show g + a.length + 5 = (g + a.length + 4) + 1 from rfl]
  rw [parseStep_str (g + a.length + 4) source _]
  show parseStep ((g + a.length + 4) + 1) (PMode.members [("source", Json.str source)])
    (skipWs ('\n' :: ' ' :: ' '
      :: (encChars "timestamp" ++ ':' :: ' '
        :: (encChars timestamp ++ ',' :: '\n' :: ' ' :: ' '
          :: (encChars "analysis" ++ ':' :: ' '
            :: (analysisChars a ++ '\n' :: ['\x7d'])))))) = _
  rw [hsk]
  rw [parseStep_members_keyval _ _ _ _ rfl]
  rw [show g + a.length + 4 = (g + a.length + 3) + 1 from rfl]
  rw [parseStep_str (g + a.length + 3) timestamp _]
  show parseStep ((g + a.length + 3) + 1)
    (PMode.members [("source", Json.str source), ("timestamp", Json.str timestamp)])
    (skipWs ('\n' :: ' ' :: ' '
      :: (encChars "analysis" ++ ':' :: ' '
        :: (analysisChars a ++ '\n' :: ['\x7d'])))) = _
  rw [hsk]
  rw [parseStep_members_keyval _ _ _ _ (skipWs_analysisChars a _)]
  rw [parseStep_analysis_value a _ g hnodup]
  rfl

/-- C8: serializing an analysis result with the export structure of the
download button, then decoding the JSON text back, yields exactly the
source, timestamp and analysis record that were serialized. -/
theorem export_roundtrip (source timestamp : String) (analysis : List (String × String))
    (hnodup : (analysis.map Prod.fst).Nodup) :
    json_loads (download_data_json source timestamp analysis)
      = some (Json.obj [("source", Json.str source), ("timestamp", Json.str timestamp),
          ("analysis", Json.obj (analysis.map fun p => (p.1, Json.str p.2)))]) := by
  unfold json_loads download_data_json
  rw [show (String.mk (downloadDataChars source timestamp analysis)).toList
    = downloadDataChars source timestamp analysis from rfl]
  rw [show skipWs (downloadDataChars source timestamp analysis)
    = downloadDataChars source timestamp analysis from rfl]
  have hlen := download_length_bound source timestamp analysis
  have hfuel : 2 * (downloadDataChars source timestamp analysis).length + 16
      = (2 * (downloadDataChars source timestamp analysis).length + 8 - analysis.length)
        + analysis.length + 8 := by omega
  rw [hfuel, parseStep_download source timestamp analysis _ hnodup]
  rfl

theorem export_roundtrip_witness :
    json_loads (download_data_json "ArXiv ID: 2301.00001" "2024-01-01 00:00:00"
        [("background", "b")])
      = some (Json.obj [("source", Json.str "ArXiv ID: 2301.00001"),
          ("timestamp", Json.str "2024-01-01 00:00:00"),
          ("analysis", Json.obj [("background", Json.str "b")])]) :=
  export_roundtrip "ArXiv ID: 2301.00001" "2024-01-01 00:00:00" [("background", "b")]
    (by decide)

/-! Claims about the presenter (C7, C10). -/

/-- Title shown by a subheader output, used to project the heading
sequence out of the rendered output. -/
def subheaderTitle : OutItem → Option String
  | OutItem.subheader t => some t
  | _ => none

/-- C7: on every record the presenter renders the seven fixed headings
in their fixed order, and under each heading writes the value of the
corresponding key when it is present and the sentinel text when it is
absent, without raising. -/
theorem display_renders_sections (analysis : List (String × Json)) :
    ((display_analysis analysis).filterMap subheaderTitle = sectionsList.map Prod.fst) ∧
    ∀ t k, (t, k) ∈ sectionsList →
      [OutItem.subheader t,
       OutItem.write (match lookupKey analysis k with
         | some v => v
         | none => Json.str "_Not available_"),
       OutItem.divider] <:+: display_analysis analysis :=
  ⟨rfl, fun _ _ h => List.infix_of_mem_flatten (List.mem_map_of_mem _ h)⟩

theorem display_renders_sections_witness :
    [OutItem.subheader "📚 Background of the Study",
     OutItem.write (Json.str "bg"), OutItem.divider]
      <:+: display_analysis [("background", Json.str "bg")] :=
  (display_renders_sections [("background", Json.str "bg")]).2
    "📚 Background of the Study" "background" (by decide)

theorem lookupKey_append_single {l : List (String × Json)} {k k' : String} {v : Json}
    (h : k ≠ k') : lookupKey (l ++ [(k, v)]) k' = lookupKey l k' := by
  induction l with
  | nil => simp [lookupKey, h]
  | cons p rest ih =>
    by_cases hk : p.1 = k'
    · simp [lookupKey, hk]
    · simp [lookupKey, hk, ih]

theorem display_raw_eq (text : String) :
    display_analysis [("raw_analysis", Json.str text)] =
      (sectionsList.map fun ts =>
        [OutItem.subheader ts.1, OutItem.write (Json.str "_Not available_"),
         OutItem.divider]).flatten := rfl

/-- C10: on the degraded raw-text record the presenter shows the
sentinel under all seven headings, the raw text itself is never written,
and keys outside the seven fixed ones never change the rendering. -/
theorem display_raw_analysis_ignored :
    (∀ text : String, display_analysis [("raw_analysis", Json.str text)] =
      (sectionsList.map fun ts =>
        [OutItem.subheader ts.1, OutItem.write (Json.str "_Not available_"),
         OutItem.divider]).flatten) ∧
    (∀ text : String, ∀ v : Json,
      OutItem.write v ∈ display_analysis [("raw_analysis", Json.str text)] →
        v = Json.str "_Not available_") ∧
    (∀ analysis : List (String × Json), ∀ k : String, ∀ v : Json,
      k ∉ sectionsList.map Prod.snd →
        display_analysis (analysis ++ [(k, v)]) = display_analysis analysis) := by
  refine ⟨fun text => display_raw_eq text, fun text v h => ?_, fun analysis k v hk => ?_⟩
  · rw [display_raw_eq] at h
    simp only [sectionsList, List.map_cons, List.map_nil, List.flatten_cons,
      List.flatten_nil, List.append_nil, List.mem_append, List.mem_cons,
      List.not_mem_nil, or_false] at h
    rcases h with h | h | h | h | h | h | h <;>
      rcases h with h | h | h <;> simp_all
  · unfold display_analysis
    congr 1
    apply List.map_congr_left
    intro ts hts
    have hne : k ≠ ts.2 := fun he => hk (he ▸ List.mem_map_of_mem Prod.snd hts)
    rw [lookupKey_append_single hne]

/-! Claims about the reply-parsing step (C1, C2). -/

theorem dropWhile_cons_head {α : Type} {p : α → Bool} {l : List α} {c : α} {rest : List α}
    (h : l.dropWhile p = c :: rest) : p c = false := by
  induction l with
  | nil => simp at h
  | cons a l' ih =>
    rw [List.dropWhile_cons] at h
    split at h
    · exact ih h
    · rename_i hpa
      cases h
      simpa using hpa

theorem extractBraces_some_decomp {l g : List Char} (h : extractBraces l = some g) :
    ∃ pre mid post, l = pre ++ '\x7b' :: (mid ++ '\x7d' :: post) := by
  unfold extractBraces at h
  split at h
  · exact absurd h (by simp)
  · rename_i c rest heq
    split at h
    · exact absurd h (by simp)
    · rename_i hm
      have hc : c = '\x7b' := by
        have := dropWhile_cons_head heq
        simpa using this
      obtain ⟨d0, dtail, hd⟩ : ∃ d0 dtail,
          (c :: rest).reverse.dropWhile (fun c2 => c2 ≠ '\x7d') = d0 :: dtail := by
        rcases he : (c :: rest).reverse.dropWhile (fun c2 => c2 ≠ '\x7d') with _ | ⟨x, xs⟩
        · exact absurd he hm
        · exact ⟨x, xs, rfl⟩
      have hd0 : d0 = '\x7d' := by
        have := dropWhile_cons_head hd
        simpa using this
      have h1 : c :: rest
          = (d0 :: dtail).reverse
            ++ ((c :: rest).reverse.takeWhile (fun c2 => c2 ≠ '\x7d')).reverse := by
        have hT := List.takeWhile_append_dropWhile
          (p := fun c2 => c2 ≠ '\x7d') (l := (c :: rest).reverse)
        rw [hd] at hT
        have h2 := congrArg List.reverse hT
        rw [List.reverse_append, List.reverse_reverse] at h2
        exact h2.symm
      rw [hd0] at h1
      simp only [List.reverse_cons] at h1
    -- h1 : c :: rest = (dtail.reverse ++ ['\x7d']) ++ takeWhile part reversed
      rcases hmidcase : dtail.reverse with _ | ⟨x, mid⟩
      · rw [hmidcase] at h1
        simp only [List.nil_append, List.singleton_append] at h1
        have : c = '\x7d' := (List.cons.injEq _ _ _ _).mp h1 |>.1
        rw [hc] at this
        exact absurd this (by decide)
      · rw [hmidcase] at h1
        simp only [List.cons_append, List.append_assoc] at h1
        obtain ⟨hcx, hrest⟩ := (List.cons.injEq _ _ _ _).mp h1
        have hstep : l = l.takeWhile (fun c2 => c2 ≠ '\x7b') ++ c :: rest := by
          conv_lhs => rw [← List.takeWhile_append_dropWhile
            (p := fun c2 => c2 ≠ '\x7b') (l := l)]
          rw [heq]
        exact ⟨_, mid, _, by rw [hstep, hc, hrest]⟩

theorem mem_dropWhile_brace {l pre mid post : List Char}
    (h : l = pre ++ '\x7b' :: (mid ++ '\x7d' :: post)) :
    '\x7d' ∈ l.dropWhile (fun c => c ≠ '\x7b') := by
  subst h
  induction pre with
  | nil =>
    rw [List.nil_append, List.dropWhile_cons_of_neg (by decide)]
    simp
  | cons p ps ih =>
    by_cases hp : p = '\x7b'
    · rw [List.cons_append, List.dropWhile_cons_of_neg (by simp [hp])]
      simp
    · rw [List.cons_append, List.dropWhile_cons_of_pos (by simpa using hp)]
      exact ih

theorem extractBraces_isSome_of_decomp {l pre mid post : List Char}
    (h : l = pre ++ '\x7b' :: (mid ++ '\x7d' :: post)) :
    (extractBraces l).isSome := by
  have hmem := mem_dropWhile_brace h
  unfold extractBraces
  split
  · rename_i heq
    rw [heq] at hmem
    simp at hmem
  · rename_i c rest heq
    rw [if_neg]
    · rfl
    · intro hnil
      rw [heq] at hmem
      have hmem2 : '\x7d' ∈ (c :: rest).reverse := List.mem_reverse.mpr hmem
      rw [List.dropWhile_eq_nil_iff] at hnil
      have := hnil _ hmem2
      simp at this

/-- C2: a reply with no brace-delimited substring, or whose greedy
brace-delimited substring does not decode as JSON, parses to exactly the
one-key raw mapping holding the whole original reply, without raising. -/
theorem parse_response_raw_fallback (rt : String) :
    (extractBraces rt.toList = none ↔
      ¬ ∃ pre mid post, rt.toList = pre ++ '\x7b' :: (mid ++ '\x7d' :: post)) ∧
    ((extractBraces rt.toList = none ∨
        ∃ sub, extractBraces rt.toList = some sub ∧ json_loads (String.mk sub) = none) →
      parseResponse rt = Json.obj [("raw_analysis", Json.str rt)]) := by
  constructor
  · constructor
    · rintro hnone ⟨pre, mid, post, hdec⟩
      have := extractBraces_isSome_of_decomp hdec
      rw [hnone] at this
      simp at this
    · intro hno
      rcases he : extractBraces rt.toList with _ | g
      · rfl
      · exact absurd (extractBraces_some_decomp he) hno
  · intro hcase
    unfold parseResponse
    rcases hcase with hnone | ⟨sub, hsub, hload⟩
    · rw [hnone]
    · rw [hsub]
      show (match json_loads (String.mk sub) with
        | some j => j
        | none => Json.obj [("raw_analysis", Json.str rt)]) = _
      rw [hload]

theorem parse_response_raw_fallback_witness :
    parseResponse "no json in this reply"
      = Json.obj [("raw_analysis", Json.str "no json in this reply")] :=
  (parse_response_raw_fallback "no json in this reply").2 (Or.inl (by rfl))

/-- C1 (amended): when the substring from the first opening brace to the
last closing brace of the reply is itself a well-formed JSON object with
all seven fixed keys, the parse step returns exactly the mapping decoded
from that substring. -/
theorem parse_response_decodes_object (rt : String) (sub : List Char)
    (mems : List (String × Json))
    (hsub : extractBraces rt.toList = some sub)
    (hdec : json_loads (String.mk sub) = some (Json.obj mems))
    (hkeys : ∀ k ∈ sectionsList.map Prod.snd, k ∈ mems.map Prod.fst) :
    parseResponse rt = Json.obj mems := by
  unfold parseResponse
  rw [hsub]
  show (match json_loads (String.mk sub) with
    | some j => j
    | none => Json.obj [("raw_analysis", Json.str rt)]) = _
  rw [hdec]

theorem parse_response_decodes_object_witness :
    parseResponse "Sure! \x7b\"background\": \"a\", \"objectives_and_hypothesis\": \"b\", \"methodology\": \"c\", \"results_and_findings\": \"d\", \"discussion_and_interpretation\": \"e\", \"contributions\": \"f\", \"achievements_and_significance\": \"g\"\x7d"
      = Json.obj [("background", Json.str "a"), ("objectives_and_hypothesis", Json.str "b"),
          ("methodology", Json.str "c"), ("results_and_findings", Json.str "d"),
          ("discussion_and_interpretation", Json.str "e"), ("contributions", Json.str "f"),
          ("achievements_and_significance", Json.str "g")] :=
  parse_response_decodes_object
    "Sure! \x7b\"background\": \"a\", \"objectives_and_hypothesis\": \"b\", \"methodology\": \"c\", \"results_and_findings\": \"d\", \"discussion_and_interpretation\": \"e\", \"contributions\": \"f\", \"achievements_and_significance\": \"g\"\x7d"
    ("\x7b\"background\": \"a\", \"objectives_and_hypothesis\": \"b\", \"methodology\": \"c\", \"results_and_findings\": \"d\", \"discussion_and_interpretation\": \"e\", \"contributions\": \"f\", \"achievements_and_significance\": \"g\"\x7d" : String).toList
    [("background", Json.str "a"), ("objectives_and_hypothesis", Json.str "b"),
      ("methodology", Json.str "c"), ("results_and_findings", Json.str "d"),
      ("discussion_and_interpretation", Json.str "e"), ("contributions", Json.str "f"),
      ("achievements_and_significance", Json.str "g")]
    (by rfl) (by rfl) (by decide)

/-- C1 counterexample: a reply that contains a well-formed seven-key
JSON object but carries one more closing brace after it: the greedy
match spans to the last brace, decoding that span fails, and the parse
step returns the raw fallback instead of the decoded object. -/
theorem parse_response_greedy_counterexample :
    json_loads "\x7b\"background\": \"a\", \"objectives_and_hypothesis\": \"b\", \"methodology\": \"c\", \"results_and_findings\": \"d\", \"discussion_and_interpretation\": \"e\", \"contributions\": \"f\", \"achievements_and_significance\": \"g\"\x7d"
      = some (Json.obj [("background", Json.str "a"),
          ("objectives_and_hypothesis", Json.str "b"), ("methodology", Json.str "c"),
          ("results_and_findings", Json.str "d"),
          ("discussion_and_interpretation", Json.str "e"), ("contributions", Json.str "f"),
          ("achievements_and_significance", Json.str "g")]) ∧
    ("\x7b\"background\": \"a\", \"objectives_and_hypothesis\": \"b\", \"methodology\": \"c\", \"results_and_findings\": \"d\", \"discussion_and_interpretation\": \"e\", \"contributions\": \"f\", \"achievements_and_significance\": \"g\"\x7d and \x7d" : String)
      = "\x7b\"background\": \"a\", \"objectives_and_hypothesis\": \"b\", \"methodology\": \"c\", \"results_and_findings\": \"d\", \"discussion_and_interpretation\": \"e\", \"contributions\": \"f\", \"achievements_and_significance\": \"g\"\x7d" ++ " and \x7d" ∧
    parseResponse "\x7b\"background\": \"a\", \"objectives_and_hypothesis\": \"b\", \"methodology\": \"c\", \"results_and_findings\": \"d\", \"discussion_and_interpretation\": \"e\", \"contributions\": \"f\", \"achievements_and_significance\": \"g\"\x7d and \x7d"
      = Json.obj [("raw_analysis", Json.str "\x7b\"background\": \"a\", \"objectives_and_hypothesis\": \"b\", \"methodology\": \"c\", \"results_and_findings\": \"d\", \"discussion_and_interpretation\": \"e\", \"contributions\": \"f\", \"achievements_and_significance\": \"g\"\x7d and \x7d")] ∧
    Json.obj [("raw_analysis", Json.str "\x7b\"background\": \"a\", \"objectives_and_hypothesis\": \"b\", \"methodology\": \"c\", \"results_and_findings\": \"d\", \"discussion_and_interpretation\": \"e\", \"contributions\": \"f\", \"achievements_and_significance\": \"g\"\x7d and \x7d")]
      ≠ Json.obj [("background", Json.str "a"), ("objectives_and_hypothesis", Json.str "b"),
          ("methodology", Json.str "c"), ("results_and_findings", Json.str "d"),
          ("discussion_and_interpretation", Json.str "e"), ("contributions", Json.str "f"),
          ("achievements_and_significance", Json.str "g")] := by
  refine ⟨by rfl, by rfl, by rfl, ?_⟩
  intro h
  have hlen := congrArg
    (fun j => match j with
      | Json.obj m => m.length
      | _ => 0) h
  simp at hlen

theorem display_raw_analysis_ignored_witness :
    (Json.str "_Not available_" = Json.str "_Not available_") ∧
    display_analysis ([("background", Json.str "b")] ++ [("zzz", Json.str "x")])
      = display_analysis [("background", Json.str "b")] :=
  ⟨display_raw_analysis_ignored.2.1 "some raw reply" (Json.str "_Not available_")
      (by rw [display_raw_eq]; simp [sectionsList]),
    display_raw_analysis_ignored.2.2 [("background", Json.str "b")] "zzz" (Json.str "x")
      (by decide)⟩

end ArxivApp
